import Mathlib

/-!
Shallow embedding of the g8t shell-command agent (repository d1nch8g/g8t).

The embedded functions mirror the Go source:
- `src/main.go`: `validateCommand`, `hasCommandBeenTried`, `executeCommand`
  (the command-log bookkeeping around execution), and the dangerous-command
  blocklist with its allow-list override (`Config.IsCommandAllowed` from
  `config/config.go`).
- `src/agent/agent.go`: `History.AddStep`, `History.GetContext`,
  `Agent.extractJSON`, `Agent.parseResponse`/`parseJSON`,
  `Agent.executeCommand` and the `Run` loop.

Go strings are modelled as `List Char`.  Effects at the boundary of the
embedded core (the subprocess spawned by `exec.Command` and the JSON decoder
`encoding/json.Unmarshal`, both outside the repository) are passed in as
explicit oracle functions, so every embedded definition is a pure, executable
Lean function.  Wall-clock fields (timestamps, durations) carry no program
logic in the modelled code paths and are omitted from the records.
-/

set_option maxHeartbeats 1000000
set_option maxRecDepth 8192

namespace G8t

/-! ### Characters and Go string primitives -/

/-- The opening-brace character, written via its code point. -/
def braceOpen : Char := '\x7b'

/-- The closing-brace character, written via its code point. -/
def braceClose : Char := '\x7d'

/-- Go `unicode.IsSpace`: the Latin-1 white space characters together with
the Unicode `White_Space` code points. -/
def isSpaceChar (c : Char) : Bool :=
  c.toNat = 9 || c.toNat = 10 || c.toNat = 11 || c.toNat = 12 ||
  c.toNat = 13 || c.toNat = 32 || c.toNat = 133 || c.toNat = 160 ||
  c.toNat = 5760 || (8192 <= c.toNat && c.toNat <= 8202) ||
  c.toNat = 8232 || c.toNat = 8233 || c.toNat = 8239 ||
  c.toNat = 8287 || c.toNat = 12288

/-- Go `strings.TrimSpace`: drop white space from both ends. -/
def trimSpace (l : List Char) : List Char :=
  ((l.dropWhile isSpaceChar).reverse.dropWhile isSpaceChar).reverse

/-- Helper for `fields`: walk the characters, accumulating the current field
in reverse in `acc` and flushing it at each white space run and at the
end. -/
def fieldsAux : List Char → List Char → List (List Char)
  | [], acc => if acc = [] then [] else [acc.reverse]
  | c :: cs, acc =>
    if isSpaceChar c then
      if acc = [] then fieldsAux cs [] else acc.reverse :: fieldsAux cs []
    else fieldsAux cs (c :: acc)

/-- Go `strings.Fields`: split around runs of white space; no empty
fields. -/
def fields (l : List Char) : List (List Char) := fieldsAux l []

/-! ### Command safety validator (`src/main.go`, `validateCommand`) -/

/-- Error text of the change-directory rejection. -/
def cdMsg : List Char :=
  "cd commands don't work in this environment - use full paths instead".toList

/-- Error text of the non-idempotent `mkdir` rejection. -/
def mkdirMsg : List Char :=
  "use 'mkdir -p' to avoid errors if directory exists".toList

/-- Error text of the fragile multi-line `echo` rejection. -/
def echoMsg : List Char :=
  "use 'cat > file << EOF' instead of echo with \\n escapes for multi-line files".toList

/-- The pattern `echo '` (echo, space, single quote) checked by the validator. -/
def echoPat : List Char := "echo ".toList ++ ['\x27']

/-- `src/main.go` `Agent.validateCommand`: structural checks, in source order,
returning `some` descriptive error on the first violation. -/
def validateCommand (command : List Char) : Option (List Char) :=
  if ("cd ".toList).isPrefixOf (trimSpace command) then some cdMsg
  else if ("mkdir ".toList).isPrefixOf (trimSpace command) &&
      ! decide ("-p".toList <:+: command) then some mkdirMsg
  else if decide (echoPat <:+: command) &&
      decide ("\\n".toList <:+: command) then some echoMsg
  else none

/-! ### Repetition check and command log (`src/main.go`) -/

/-- One entry of `Agent.commandLog` (`CommandLog` in `src/main.go`); the
timestamp and duration fields carry no logic and are omitted. -/
structure CommandLog where
  command : List Char
  output : List Char
  error : List Char
deriving DecidableEq, Repr

/-- `MaxRememberedCommands` from `src/main.go`. -/
def maxRememberedCommands : Nat := 15

/-- The slice of the command log inspected by the repetition check: the last
three entries (`start := len(a.commandLog) - 3`, clamped at zero). -/
def lastWindow (log : List CommandLog) : List CommandLog :=
  log.drop (log.length - 3)

/-- `src/main.go` `Agent.hasCommandBeenTried`: exact-text match against the
last three log entries. -/
def hasCommandBeenTried (log : List CommandLog) (command : List Char) : Bool :=
  (lastWindow log).any (fun e => e.command == command)

/-- The fixed dangerous-substring blocklist from `src/main.go`. -/
def dangerousCommands : List (List Char) :=
  [ "rm -rf /".toList, "sudo rm".toList, "mkfs".toList, "dd if=".toList,
    (':' :: '(' :: ')' :: '\x7b' :: ' ' :: ':' :: '|' :: ':' :: '&' :: ' ' ::
      '\x7d' :: ';' :: ':' :: []),
    "chmod -R 777 /".toList, "chown -R".toList, "> /dev/".toList,
    "curl".toList, "wget".toList,
    "sudo".toList, "su -".toList, "passwd".toList, "useradd".toList,
    "userdel".toList ]

/-- `config/config.go` `Config.IsCommandAllowed`: membership of the leading
token in the run's allow-list. -/
def isCommandAllowed (allowedCmds : List (List Char)) (cmd : List Char) : Bool :=
  allowedCmds.any (fun a => a == cmd)

/-- The dangerous-command loop of `src/main.go` `executeCommand`: the first
blocklist pattern contained in the command whose leading token is not
allow-listed, if any.  The Go code indexes `strings.Fields(command)[0]`;
`headD []` stands for that index (the C10 theorem shows the list is never
empty when the index is evaluated). -/
def firstBlockedDanger (allowedCmds : List (List Char)) (command : List Char) :
    Option (List Char) :=
  dangerousCommands.find? (fun d =>
    decide (d <:+: command) &&
    ! isCommandAllowed allowedCmds ((fields command).headD []))

/-- The run configuration fields consulted by `executeCommand`. -/
structure MainConfig where
  dryRun : Bool
  allowedCmds : List (List Char)

/-- Result of one `executeCommand` call in `src/main.go`: the returned output
string, the returned error (`none` on success) and the command log after the
call. -/
structure MainExecResult where
  output : List Char
  err : Option (List Char)
  log : List CommandLog
deriving DecidableEq, Repr

/-- Error text of the repetition rejection. -/
def repMsg : List Char :=
  "command was already tried recently - avoid repetition".toList

/-- The dry-run output template of `src/main.go`. -/
def dryRunOut (command : List Char) : List Char :=
  "[DRY RUN] Command: ".toList ++ command

/-- `src/main.go` `Agent.executeCommand`, with the subprocess modelled by the
oracle `exec` (combined output and optional error text of
`cmd.CombinedOutput()`). -/
def executeCommand (cfg : MainConfig)
    (exec : List Char → List Char × Option (List Char))
    (log : List CommandLog) (command : List Char) : MainExecResult :=
  match validateCommand command with
  | some e => ⟨[], some e, log⟩
  | none =>
    if hasCommandBeenTried log command then ⟨[], some repMsg, log⟩
    else match firstBlockedDanger cfg.allowedCmds command with
    | some d => ⟨[], some ("dangerous command blocked: ".toList ++ d), log⟩
    | none =>
      if fields command = [] then ⟨[], some ("empty command".toList), log⟩
      else if cfg.dryRun then ⟨dryRunOut command, none, log⟩
      else
        let r := exec command
        let entry : CommandLog := ⟨command, r.1, (r.2).getD []⟩
        let log' := log ++ [entry]
        ⟨r.1, r.2,
          if log'.length > maxRememberedCommands then
            log'.drop (log'.length - maxRememberedCommands)
          else log'⟩

/-! ### Step history (`src/agent/agent.go`) -/

/-- `Step` from `src/agent/agent.go` (the timestamp carries no logic and is
omitted). -/
structure Step where
  number : Nat
  thought : List Char
  command : List Char
  output : List Char
  error : List Char
  success : Bool
deriving DecidableEq, Repr

/-- `History` from `src/agent/agent.go`. -/
structure History where
  steps : List Step
  maxSteps : Nat
deriving DecidableEq, Repr

/-- `NewHistory`. -/
def NewHistory (maxSteps : Nat) : History := ⟨[], maxSteps⟩

/-- `History.AddStep`: append, then drop the oldest entry when the capacity
is exceeded (`h.Steps = h.Steps[1:]`). -/
def addStep (h : History) (s : Step) : History :=
  let steps := h.steps ++ [s]
  { h with steps := if steps.length > h.maxSteps then steps.drop 1 else steps }

/-- Decimal rendering of the step number (Go `%d`). -/
def numStr (n : Nat) : List Char := (Nat.repr n).toList

/-- Go `%t` rendering of the success flag. -/
def boolStr (b : Bool) : List Char :=
  if b then "true".toList else "false".toList

/-- The text `History.GetContext` appends for one step. -/
def renderStep (s : Step) : List Char :=
  "\nStep ".toList ++ numStr s.number ++ ":\n".toList ++
  "Thought: ".toList ++ s.thought ++ "\n".toList ++
  "Command: ".toList ++ s.command ++ "\n".toList ++
  (if s.output = [] then [] else "Output: ".toList ++ s.output ++ "\n".toList) ++
  (if s.error = [] then [] else "Error: ".toList ++ s.error ++ "\n".toList) ++
  "Success: ".toList ++ boolStr s.success ++ "\n".toList

/-- `History.GetContext` from `src/agent/agent.go`. -/
def getContext (h : History) : List Char :=
  if h.steps = [] then "No previous commands executed.".toList
  else "Previous command history:\n".toList ++ (h.steps.map renderStep).flatten

/-! ### Response parsing (`src/agent/agent.go`) -/

/-- The scanning loop of `Agent.extractJSON`, starting at the first opening
brace: `braceCount` is incremented on an opening brace and decremented on a
closing brace, and the slice from the first opening brace up to and including
the brace that brings the count back to zero is returned (`acc` holds the
consumed characters in reverse).  Falling off the end returns the empty
string. -/
def scanJSON : List Char → Int → List Char → List Char
  | [], _, _ => []
  | c :: cs, depth, acc =>
    if c = braceOpen then scanJSON cs (depth + 1) (c :: acc)
    else if c = braceClose then
      if depth - 1 = 0 then (c :: acc).reverse
      else scanJSON cs (depth - 1) (c :: acc)
    else scanJSON cs depth (c :: acc)

/-- `Agent.extractJSON`: locate the first opening brace
(`strings.Index(response, "...")`, empty result when absent), then scan
forward with depth counting. -/
def extractJSON (response : List Char) : List Char :=
  match response.dropWhile (fun c => c != braceOpen) with
  | [] => []
  | c :: cs => scanJSON (c :: cs) 0 []

/-- Net brace depth of a character list: opening braces count `+1`, closing
braces `-1`. -/
def braceDelta : List Char → Int
  | [] => 0
  | c :: cs =>
    (if c = braceOpen then 1 else if c = braceClose then -1 else 0) +
      braceDelta cs

/-- `Agent.parseResponse` composed with `Agent.parseJSON`
(`src/agent/agent.go`): extract the brace-delimited substring, decode it, and
reject a decode with a missing `thought` or `command` field.  The JSON
decoder (`encoding/json.Unmarshal`, outside the repository) is the oracle
`decode`; its error detail string is abstracted. -/
def parseResponse (decode : List Char → Option (List Char × List Char))
    (response : List Char) : Except (List Char) (List Char × List Char) :=
  let jsonStr := extractJSON response
  if jsonStr = [] then .error ("no JSON found in response".toList)
  else match decode jsonStr with
    | none => .error ("failed to parse JSON".toList)
    | some (t, c) =>
      if t = [] || c = [] then
        .error ("missing required fields in JSON response".toList)
      else .ok (t, c)

/-! ### Agent command execution and run loop (`src/agent/agent.go`) -/

/-- The fixed dry-run step output of the agent package. -/
def agentDryMsg : List Char := "DRY RUN - command not executed".toList

/-- `Agent.executeCommand` from `src/agent/agent.go`: build the step record,
short-circuit in dry-run mode with a fixed output and success, otherwise run
the command through the `exec` oracle (combined output and optional error of
`cmd.CombinedOutput()`) and record output, error text and success flag. -/
def agentExecuteCommand (dryRun : Bool)
    (exec : List Char → List Char × Option (List Char))
    (stepCount : Nat) (history : History)
    (thought command : List Char) : History :=
  if dryRun then
    addStep history ⟨stepCount, thought, command, agentDryMsg, [], true⟩
  else
    let r := exec command
    addStep history
      ⟨stepCount, thought, command, r.1, (r.2).getD [], (r.2).isNone⟩

/-- The mutable agent fields read and written by the `Run` loop. -/
structure AgentState where
  history : History
  stepCount : Nat
deriving DecidableEq, Repr

/-- Outcome of the `Run` loop, carrying the final agent state: task
completed, fatal completion-service failure (the returned error), or the
maximum-commands error after the loop condition fails. -/
inductive RunResult where
  | done (s : AgentState)
  | fatal (msg : List Char) (s : AgentState)
  | exhausted (s : AgentState)
deriving DecidableEq, Repr

/-- The sentinel command signalling completion. -/
def taskCompleteSentinel : List Char := "TASK_COMPLETE".toList

/-- The `for a.stepCount < a.config.MaxCommands` loop of `Agent.Run`
(`src/agent/agent.go`), with `fuel = MaxCommands - stepCount` iterations
remaining.  The completion service is the oracle `client`, indexed by the
step counter after its increment at the top of the iteration; the JSON
decoder and the subprocess are the oracles `decode` and `exec`.  Per
iteration: increment the counter, call `Complete` (a failure returns
immediately with the wrapped error), parse (a failure logs and continues),
return on the completion sentinel, otherwise execute and record the step. -/
def runLoop (dryRun : Bool)
    (client : Nat → Except (List Char) (List Char))
    (decode : List Char → Option (List Char × List Char))
    (exec : List Char → List Char × Option (List Char)) :
    Nat → AgentState → RunResult
  | 0, s => .exhausted s
  | fuel + 1, s =>
    let n := s.stepCount + 1
    match client n with
    | .error e => .fatal ("failed to get GPT response: ".toList ++ e) s
    | .ok response =>
      match parseResponse decode response with
      | .error _ => runLoop dryRun client decode exec fuel ⟨s.history, n⟩
      | .ok (thought, command) =>
        if command = taskCompleteSentinel then .done ⟨s.history, n⟩
        else runLoop dryRun client decode exec fuel
          ⟨agentExecuteCommand dryRun exec n s.history thought command, n⟩

/-- `Agent.Run` from `src/agent/agent.go`: the loop started on a fresh agent
(`NewHistory(10)`, step counter zero). -/
def run (maxCommands : Nat) (dryRun : Bool)
    (client : Nat → Except (List Char) (List Char))
    (decode : List Char → Option (List Char × List Char))
    (exec : List Char → List Char × Option (List Char)) : RunResult :=
  runLoop dryRun client decode exec maxCommands ⟨NewHistory 10, 0⟩

/-! ### Concrete oracles and states used by the witness theorems -/

/-- A completion client that always fails. -/
def clientErr : Nat → Except (List Char) (List Char) :=
  fun _ => .error ("boom".toList)

/-- A completion client that always returns prose without a structured
object. -/
def clientPlain : Nat → Except (List Char) (List Char) :=
  fun _ => .ok ("no structured object here".toList)

/-- A JSON-decoder oracle that always fails. -/
def decodeNone : List Char → Option (List Char × List Char) :=
  fun _ => none

/-- A subprocess oracle that succeeds echoing the command. -/
def execEcho : List Char → List Char × Option (List Char) :=
  fun c => (c, none)

/-- A concrete step used by witnesses. -/
def stepA : Step := ⟨1, "t1".toList, "c1".toList, "o1".toList, [], true⟩

/-- A concrete step used by witnesses. -/
def stepB : Step := ⟨2, "t2".toList, "c2".toList, [], "e2".toList, false⟩

/-- A concrete step used by witnesses. -/
def stepC : Step := ⟨3, "t3".toList, "c3".toList, "o3".toList, [], true⟩

/-- A concrete step with non-empty output and error, used by witnesses. -/
def stepD : Step := ⟨4, "t4".toList, "c4".toList, "o4".toList, "e4".toList, false⟩

/-- A concrete two-step history used by the C6 witness. -/
def hist6 : History := ⟨[stepA, stepD], 10⟩

/-- A fresh agent state, as built by `New` in `src/agent/agent.go`. -/
def state0 : AgentState := ⟨NewHistory 10, 0⟩

/-! ### Drifting duplicate implementations cited by the claims

The repository keeps near-duplicate versions of the agent.  The claims cite
both the current implementations above and the variants below, whose
behavior drifts on the claimed properties. -/

/-- The `Run` loop of the variant in `src/unnamed/part_001`: identical to
`runLoop` except that a `Complete` failure is logged and the loop does
`continue` — the error is not surfaced and the next tick retries.  Parsing,
the completion sentinel and command execution are unchanged from the agent
package. -/
def runLoopV1 (dryRun : Bool)
    (client : Nat → Except (List Char) (List Char))
    (decode : List Char → Option (List Char × List Char))
    (exec : List Char → List Char × Option (List Char)) :
    Nat → AgentState → RunResult
  | 0, s => .exhausted s
  | fuel + 1, s =>
    let n := s.stepCount + 1
    match client n with
    | .error _ => runLoopV1 dryRun client decode exec fuel ⟨s.history, n⟩
    | .ok response =>
      match parseResponse decode response with
      | .error _ => runLoopV1 dryRun client decode exec fuel ⟨s.history, n⟩
      | .ok (thought, command) =>
        if command = taskCompleteSentinel then .done ⟨s.history, n⟩
        else runLoopV1 dryRun client decode exec fuel
          ⟨agentExecuteCommand dryRun exec n s.history thought command, n⟩

/-- Index of the first opening brace (Go `strings.Index(response, "...")`,
`none` for `-1`). -/
def firstOpenIdx (l : List Char) : Option Nat :=
  l.findIdx? (fun c => c == braceOpen)

/-- Index of the last closing brace (Go `strings.LastIndex`, `none` for
`-1`). -/
def lastCloseIdx (l : List Char) : Option Nat :=
  match l.reverse.findIdx? (fun c => c == braceClose) with
  | none => none
  | some j => some (l.length - 1 - j)

/-- The brace-slice extraction of `Agent.parseResponse` in
`src/main.go` (lines 403-411): take the substring from the first opening
brace to the **last** closing brace, with no depth counting; `none` when
either brace is missing or the first `\x7b` does not precede the last
`\x7d`.  (The fence-stripping that precedes these lines is the identity on
replies that carry no markdown fence.) -/
def mainExtractJSON (response : List Char) : Option (List Char) :=
  match firstOpenIdx response, lastCloseIdx response with
  | some s, some e =>
    if s ≥ e then none else some ((response.drop s).take (e + 1 - s))
  | _, _ => none

/-- `Agent.parseResponse` of the variant in `src/unnamed/part_000`: slice
from the first opening brace to one past the last closing brace, failing
with `no JSON found in response: <reply>` when either brace is absent; the
hand-rolled field extraction applied to the slice (`parseJSON` there never
returns an error) is the total oracle `decodeT`. -/
def parseResponseV0 (decodeT : List Char → List Char × List Char × Bool)
    (response : List Char) :
    Except (List Char) (List Char × List Char × Bool) :=
  match firstOpenIdx response, lastCloseIdx response with
  | some s, some e => .ok (decodeT ((response.drop s).take (e + 1 - s)))
  | _, _ => .error ("no JSON found in response: ".toList ++ response)

/-- `Agent.executeCommand` of the variant in `src/unnamed/part_000`: the
completion sentinel short-circuits, dry-run returns a template embedding the
command, otherwise the subprocess oracle runs. -/
def executeCommandV0 (dryRun : Bool)
    (exec : List Char → List Char × Option (List Char))
    (command : List Char) : List Char × Option (List Char) :=
  if command = "TASK_COMPLETED".toList then ([], none)
  else if dryRun then
    ("[DRY RUN] Command would be executed: ".toList ++ command, none)
  else exec command

/-- The `Run` loop of the variant in `src/unnamed/part_000`: both a
`Complete` failure and a parse failure `return` a wrapped error, aborting
the run; otherwise the step record built in the loop body is appended to the
history. -/
def runLoopV0 (dryRun : Bool)
    (client : Nat → Except (List Char) (List Char))
    (decodeT : List Char → List Char × List Char × Bool)
    (exec : List Char → List Char × Option (List Char)) :
    Nat → AgentState → RunResult
  | 0, s => .exhausted s
  | fuel + 1, s =>
    let n := s.stepCount + 1
    match client n with
    | .error e =>
      .fatal ("GPT request failed at step ".toList ++ numStr n ++
        ": ".toList ++ e) s
    | .ok response =>
      match parseResponseV0 decodeT response with
      | .error m =>
        .fatal ("failed to parse response at step ".toList ++ numStr n ++
          ": ".toList ++ m) s
      | .ok (thought, command, completed) =>
        if completed then .done ⟨s.history, n⟩
        else
          let r := executeCommandV0 dryRun exec command
          runLoopV0 dryRun client decodeT exec fuel
            ⟨addStep s.history
              ⟨n, thought, command, r.1, (r.2).getD [], (r.2).isNone⟩, n⟩

/-- The text `History.GetContext` of the variant in `src/unnamed/part_001`
(lines 59-78) appends for one step: thought, command, error when non-empty
and success flag — the output field is not rendered at all. -/
def renderStepV1 (s : Step) : List Char :=
  "\nStep ".toList ++ numStr s.number ++ ":\n".toList ++
  "Thought: ".toList ++ s.thought ++ "\n".toList ++
  "Command: ".toList ++ s.command ++ "\n".toList ++
  (if s.error = [] then [] else "Error: ".toList ++ s.error ++ "\n".toList) ++
  "Success: ".toList ++ boolStr s.success ++ "\n".toList

/-- `History.GetContext` of the variant in `src/unnamed/part_001`. -/
def getContextV1 (h : History) : List Char :=
  if h.steps = [] then "No previous commands executed.".toList
  else "Previous command history:\n".toList ++
    (h.steps.map renderStepV1).flatten

/-- A total field-extraction oracle for `parseResponseV0` (the hand-rolled
`parseJSON` of `src/unnamed/part_000` never fails). -/
def decodeT0 : List Char → List Char × List Char × Bool :=
  fun _ => ([], [], false)

/-- A fresh agent state of the `src/unnamed/part_000` variant
(`NewHistory(20)`). -/
def stateV0 : AgentState := ⟨NewHistory 20, 0⟩

/-! ## Theorems -/

/-- **C1, amended.** In `Run` of `src/agent/agent.go`, if the
completion-service call (`Complete`) returns an error, the run aborts
immediately with that error surfaced to the caller (wrapped as
`failed to get GPT response: …`): the result is `fatal` with the agent state
unchanged, so no retry is attempted, no further iterations occur, and no
`Step` is recorded for that iteration.  (The variant in
`src/unnamed/part_001` instead logs and continues; see the
counterexample.) -/
theorem c1_complete_error_aborts_run
    (dryRun : Bool) (client : Nat → Except (List Char) (List Char))
    (decode : List Char → Option (List Char × List Char))
    (exec : List Char → List Char × Option (List Char))
    (fuel : Nat) (s : AgentState) (e : List Char)
    (hc : client (s.stepCount + 1) = .error e) :
    runLoop dryRun client decode exec (fuel + 1) s =
      .fatal ("failed to get GPT response: ".toList ++ e) s := by
  simp [runLoop, hc]

/-- Witness for C1 at a concrete failing client. -/
theorem c1_complete_error_aborts_run_witness :
    clientErr (state0.stepCount + 1) = .error ("boom".toList) ∧
    runLoop false clientErr decodeNone execEcho 1 state0 =
      .fatal ("failed to get GPT response: ".toList ++ "boom".toList)
        state0 :=
  ⟨rfl, c1_complete_error_aborts_run false clientErr decodeNone execEcho 0
    state0 ("boom".toList) rfl⟩

/-- **C2, amended.** In `Run` of `src/agent/agent.go`, if parsing the
completion-service reply fails, the loop continues to the next iteration
(one unit of fuel consumed) with the step counter incremented and the
history unchanged: the parse failure consumes one unit of the step budget
without appending any `Step` and without aborting the run.  (The variant in
`src/unnamed/part_000` instead returns the wrapped parse error, aborting the
run; see the counterexample.) -/
theorem c2_parse_failure_continues
    (dryRun : Bool) (client : Nat → Except (List Char) (List Char))
    (decode : List Char → Option (List Char × List Char))
    (exec : List Char → List Char × Option (List Char))
    (fuel : Nat) (s : AgentState) (r m : List Char)
    (hc : client (s.stepCount + 1) = .ok r)
    (hp : parseResponse decode r = .error m) :
    runLoop dryRun client decode exec (fuel + 1) s =
      runLoop dryRun client decode exec fuel ⟨s.history, s.stepCount + 1⟩ := by
  simp [runLoop, hc, hp]

/-- Witness for C2 at a concrete unparsable reply. -/
theorem c2_parse_failure_continues_witness :
    clientPlain (state0.stepCount + 1) =
      .ok ("no structured object here".toList) ∧
    parseResponse decodeNone ("no structured object here".toList) =
      .error ("no JSON found in response".toList) ∧
    runLoop false clientPlain decodeNone execEcho 1 state0 =
      runLoop false clientPlain decodeNone execEcho 0
        ⟨state0.history, state0.stepCount + 1⟩ :=
  ⟨rfl, rfl,
    c2_parse_failure_continues false clientPlain decodeNone execEcho 0 state0
      ("no structured object here".toList)
      ("no JSON found in response".toList) rfl rfl⟩

/-- `addStep` preserves the capacity field. -/
theorem addStep_maxSteps (h : History) (s : Step) :
    (addStep h s).maxSteps = h.maxSteps := rfl

/-- Folding `addStep` over a sequence of insertions keeps exactly the
most recent entries: the result is the suffix of `init.steps ++ ins`
obtained by dropping what exceeds the capacity, oldest first. -/
theorem foldl_addStep_steps (ins : List Step) :
    ∀ init : History, init.steps.length ≤ init.maxSteps →
      ((ins.foldl addStep init).steps =
        (init.steps ++ ins).drop
          ((init.steps.length + ins.length) - init.maxSteps)) ∧
      (ins.foldl addStep init).maxSteps = init.maxSteps := by
  induction ins with
  | nil =>
    intro init hle
    refine ⟨?_, rfl⟩
    simp [Nat.sub_eq_zero_of_le hle]
  | cons s rest ih =>
    intro init hle
    have hfold : (s :: rest).foldl addStep init =
        rest.foldl addStep (addStep init s) := rfl
    rw [hfold]
    by_cases hcap : init.steps.length + 1 ≤ init.maxSteps
    · have hstep : addStep init s =
          ⟨init.steps ++ [s], init.maxSteps⟩ := by
        simp [addStep]
        omega
      rw [hstep]
      obtain ⟨h1, h2⟩ := ih ⟨init.steps ++ [s], init.maxSteps⟩ (by simpa)
      refine ⟨?_, h2⟩
      rw [h1]
      have h3 : init.steps ++ s :: rest = (init.steps ++ [s]) ++ rest := by
        simp
      rw [h3]
      congr 1
      simp only [List.length_append, List.length_cons, List.length_nil]
      omega
    · have heq : init.steps.length = init.maxSteps := by omega
      have hstep : addStep init s =
          ⟨(init.steps ++ [s]).drop 1, init.maxSteps⟩ := by
        simp [addStep]
        omega
      rw [hstep]
      obtain ⟨h1, h2⟩ := ih ⟨(init.steps ++ [s]).drop 1, init.maxSteps⟩
        (by simp; omega)
      refine ⟨?_, h2⟩
      rw [h1]
      have hidx1 : ((init.steps ++ [s]).drop 1).length + rest.length -
          init.maxSteps = rest.length := by
        simp only [List.length_drop, List.length_append, List.length_cons,
          List.length_nil]
        omega
      have hidx2 : init.steps.length + (s :: rest).length - init.maxSteps =
          1 + rest.length := by
        simp only [List.length_cons]
        omega
      rw [hidx1, hidx2]
      have h3 : init.steps ++ s :: rest = (init.steps ++ [s]) ++ rest := by
        simp
      have h6 : (1 : Nat) ≤ (init.steps ++ [s]).length := by simp
      rw [h3, ← List.drop_drop, List.drop_append_of_le_length h6]

/-- **C3.** For every sequence of `AddStep` operations on a `History`
created with capacity `K`, after each operation (equivalently, for every
insertion sequence `ins`) the stored step list has length at most `K`, and
the content is exactly the suffix of the appended sequence obtained by
evicting the oldest entries (append then drop the front), preserving the
order of the remaining entries. -/
theorem c3_history_fifo_capacity (K : Nat) (init : History) (ins : List Step)
    (hK : init.maxSteps = K) (hlen : init.steps.length ≤ K) :
    (ins.foldl addStep init).steps.length ≤ K ∧
    (ins.foldl addStep init).steps =
      (init.steps ++ ins).drop ((init.steps.length + ins.length) - K) := by
  subst hK
  obtain ⟨h1, _⟩ := foldl_addStep_steps ins init hlen
  refine ⟨?_, h1⟩
  rw [h1]
  simp only [List.length_drop, List.length_append]
  omega

/-- Witness for C3: capacity 2, three insertions into a fresh history; the
oldest entry is evicted and the last two remain in order. -/
theorem c3_history_fifo_capacity_witness :
    (NewHistory 2).maxSteps = 2 ∧ (NewHistory 2).steps.length ≤ 2 ∧
    (([stepA, stepB, stepC].foldl addStep (NewHistory 2)).steps.length ≤ 2 ∧
      ([stepA, stepB, stepC].foldl addStep (NewHistory 2)).steps =
        ((NewHistory 2).steps ++ [stepA, stepB, stepC]).drop
          (((NewHistory 2).steps.length + [stepA, stepB, stepC].length) - 2)) :=
  ⟨rfl, by decide,
    c3_history_fifo_capacity 2 (NewHistory 2) [stepA, stepB, stepC] rfl
      (by decide)⟩

/-- Every entry of the command log left by `executeCommand` was either
already in the log or records the command just executed. -/
theorem executeCommand_log_mem (cfg : MainConfig)
    (exec : List Char → List Char × Option (List Char))
    (log : List CommandLog) (command : List Char) :
    ∀ e ∈ (executeCommand cfg exec log command).log,
      e ∈ log ∨ e.command = command := by
  unfold executeCommand
  cases hv : validateCommand command with
  | some msg => exact fun e he => Or.inl he
  | none =>
    by_cases ht : hasCommandBeenTried log command
    · simp only [ht, if_true]
      exact fun e he => Or.inl he
    · simp only [ht, if_false]
      cases hd : firstBlockedDanger cfg.allowedCmds command with
      | some d => exact fun e he => Or.inl he
      | none =>
        by_cases hf : fields command = []
        · simp only [hf, if_true]
          exact fun e he => Or.inl he
        · simp only [hf, if_false]
          by_cases hdr : cfg.dryRun
          · simp only [hdr, if_true]
            exact fun e he => Or.inl he
          · simp only [hdr, if_false]
            intro e he
            have hsub : e ∈ log ++ [(⟨command, (exec command).1,
                ((exec command).2).getD []⟩ : CommandLog)] := by
              by_cases hlen : (log ++ [(⟨command, (exec command).1,
                  ((exec command).2).getD []⟩ : CommandLog)]).length >
                  maxRememberedCommands
              · rw [if_pos hlen] at he
                exact List.drop_subset _ _ he
              · rwa [if_neg hlen] at he
            rcases List.mem_append.mp hsub with h | h
            · exact Or.inl h
            · right
              rw [List.mem_singleton.mp h]

/-- When every logged command passed validation, the same holds after any
`executeCommand` call: entries are appended only after validation
succeeds. -/
theorem executeCommand_log_validated (cfg : MainConfig)
    (exec : List Char → List Char × Option (List Char))
    (log : List CommandLog) (command : List Char)
    (hinv : ∀ e ∈ log, validateCommand e.command = none) :
    ∀ e ∈ (executeCommand cfg exec log command).log,
      validateCommand e.command = none := by
  intro e he
  cases hv : validateCommand command with
  | some msg =>
    have hlog : (executeCommand cfg exec log command).log = log := by
      unfold executeCommand
      rw [hv]
    rw [hlog] at he
    exact hinv e he
  | none =>
    rcases executeCommand_log_mem cfg exec log command e he with h | h
    · exact hinv e h
    · rw [h, hv]

/-- **C4, counterexample.** The command `cd /tmp` is rejected by the safety
validator with its descriptive reason, but contrary to the claim the
controller records no Step at all: the command log is left empty, so no
failed Step carrying the rejection text exists. -/
theorem c4_counterexample :
    validateCommand ("cd /tmp".toList) = some cdMsg ∧
    (executeCommand ⟨false, []⟩ execEcho [] ("cd /tmp".toList)).err =
      some cdMsg ∧
    (executeCommand ⟨false, []⟩ execEcho [] ("cd /tmp".toList)).log = [] := by
  refine ⟨rfl, rfl, rfl⟩

/-- **C4, amended.** For every command rejected by the safety validator, the
command is not executed (the result is independent of the subprocess oracle
and the log is unchanged) and `executeCommand` returns the validator's
descriptive rejection reason as its error; no entry is recorded in the
command log. -/
theorem c4_rejection_no_exec_no_log (cfg : MainConfig)
    (exec exec' : List Char → List Char × Option (List Char))
    (log : List CommandLog) (command e : List Char)
    (hv : validateCommand command = some e) :
    executeCommand cfg exec log command = ⟨[], some e, log⟩ ∧
    executeCommand cfg exec log command =
      executeCommand cfg exec' log command := by
  unfold executeCommand
  rw [hv]
  exact ⟨rfl, rfl⟩

/-- Witness for the amended C4 at the concrete rejected command
`cd /tmp`. -/
theorem c4_rejection_no_exec_no_log_witness :
    validateCommand ("cd /tmp".toList) = some cdMsg ∧
    (executeCommand ⟨false, []⟩ execEcho [] ("cd /tmp".toList) =
        ⟨[], some cdMsg, []⟩ ∧
      executeCommand ⟨false, []⟩ execEcho [] ("cd /tmp".toList) =
        executeCommand ⟨false, []⟩ (fun c => (c, some ("fail".toList))) []
          ("cd /tmp".toList)) :=
  ⟨rfl, c4_rejection_no_exec_no_log ⟨false, []⟩ execEcho
    (fun c => (c, some ("fail".toList))) [] ("cd /tmp".toList) cdMsg rfl⟩

/-- **C8, counterexample.** The command `cd\t/tmp` begins with a
change-directory invocation (its leading whitespace-separated token is
`cd`), yet `validateCommand` accepts it: the structural check only matches
the literal prefix `cd ` (with a space) on the trimmed text, so a tab after
`cd` escapes it. -/
theorem c8_counterexample :
    (fields ("cd\t/tmp".toList)).head? = some ("cd".toList) ∧
    validateCommand ("cd\t/tmp".toList) = none := by
  refine ⟨by decide, rfl⟩

/-- **C8, amended.** For every command whose whitespace-trimmed text begins
with the literal prefix `cd ` (cd followed by a space character),
`executeCommand` rejects it with the change-directory error before doing
anything else, for every possible allow-list, every dry-run setting, every
log and every subprocess oracle: the allow-list override applies only to the
destructive-pattern blocklist, never to the structural checks. -/
theorem c8_cd_always_rejected (command : List Char)
    (allowedCmds : List (List Char)) (dr : Bool)
    (exec : List Char → List Char × Option (List Char))
    (log : List CommandLog)
    (hcd : ("cd ".toList).isPrefixOf (trimSpace command) = true) :
    validateCommand command = some cdMsg ∧
    executeCommand ⟨dr, allowedCmds⟩ exec log command =
      ⟨[], some cdMsg, log⟩ := by
  have hv : validateCommand command = some cdMsg := by
    unfold validateCommand
    rw [hcd]
    rfl
  refine ⟨hv, ?_⟩
  unfold executeCommand
  rw [hv]

/-- Witness for the amended C8 at the concrete command `cd /tmp` with a
nonempty allow-list. -/
theorem c8_cd_always_rejected_witness :
    (("cd ".toList).isPrefixOf (trimSpace ("cd /tmp".toList)) = true) ∧
    (validateCommand ("cd /tmp".toList) = some cdMsg ∧
      executeCommand ⟨true, ["cd".toList]⟩ execEcho [] ("cd /tmp".toList) =
        ⟨[], some cdMsg, []⟩) :=
  ⟨rfl, c8_cd_always_rejected ("cd /tmp".toList) ["cd".toList] true execEcho
    [] rfl⟩

/-- **C9.** For every command text that exactly matches a command appearing
in any of the last three recorded command-log entries (the repetition
window), and for every log whose entries all passed validation (the
invariant `executeCommand` itself maintains, per
`executeCommand_log_validated`), `executeCommand` rejects the new occurrence
with the repetition error before execution: the result is independent of the
subprocess oracle and the log is unchanged — regardless of whether the
earlier occurrence succeeded. -/
theorem c9_repetition_rejected (cfg : MainConfig)
    (exec exec' : List Char → List Char × Option (List Char))
    (log : List CommandLog) (command : List Char)
    (hinv : ∀ e ∈ log, validateCommand e.command = none)
    (ht : hasCommandBeenTried log command = true) :
    executeCommand cfg exec log command = ⟨[], some repMsg, log⟩ ∧
    executeCommand cfg exec log command =
      executeCommand cfg exec' log command := by
  have hv : validateCommand command = none := by
    obtain ⟨e, he, heq⟩ := List.any_eq_true.mp ht
    have hcmd : e.command = command := by
      exact eq_of_beq heq
    have hmem : e ∈ log := List.drop_subset _ _ he
    rw [← hcmd]
    exact hinv e hmem
  unfold executeCommand
  rw [hv]
  simp [ht]

/-- Witness for C9: `ls -la` succeeded and sits in the log; the exact same
text is rejected with the repetition error. -/
theorem c9_repetition_rejected_witness :
    (∀ e ∈ [(⟨"ls -la".toList, "out".toList, []⟩ : CommandLog)],
      validateCommand e.command = none) ∧
    hasCommandBeenTried [(⟨"ls -la".toList, "out".toList, []⟩ : CommandLog)]
      ("ls -la".toList) = true ∧
    (executeCommand ⟨false, []⟩ execEcho
        [(⟨"ls -la".toList, "out".toList, []⟩ : CommandLog)]
        ("ls -la".toList) =
      ⟨[], some repMsg,
        [(⟨"ls -la".toList, "out".toList, []⟩ : CommandLog)]⟩ ∧
      executeCommand ⟨false, []⟩ execEcho
          [(⟨"ls -la".toList, "out".toList, []⟩ : CommandLog)]
          ("ls -la".toList) =
        executeCommand ⟨false, []⟩ (fun c => (c, some ("x".toList)))
          [(⟨"ls -la".toList, "out".toList, []⟩ : CommandLog)]
          ("ls -la".toList)) :=
  ⟨by decide, by decide,
    c9_repetition_rejected ⟨false, []⟩ execEcho
      (fun c => (c, some ("x".toList)))
      [(⟨"ls -la".toList, "out".toList, []⟩ : CommandLog)]
      ("ls -la".toList) (by decide) (by decide)⟩

/-- **C5, counterexample.** In dry-run mode the agent package records a Step
with success true, but its output is the fixed string
`DRY RUN - command not executed`, which does not embed the command text
`rm -rf build`: the claim that the recorded Step's synthetic output contains
the literal command is false. -/
theorem c5_counterexample :
    (agentExecuteCommand true execEcho 1 (NewHistory 10) ("think".toList)
        ("rm -rf build".toList)).steps =
      [⟨1, "think".toList, "rm -rf build".toList, agentDryMsg, [], true⟩] ∧
    ¬ ("rm -rf build".toList <:+: agentDryMsg) := by
  refine ⟨rfl, by decide⟩

/-- **C5, amended.** With dry-run enabled no subprocess is spawned (results
are independent of the subprocess oracle) and success is reported, but the
two implementations split the claimed behavior: `executeCommand` in
`src/main.go` returns the deterministic output `[DRY RUN] Command: <cmd>`,
which embeds the literal command text, yet appends no log entry, while
`Agent.executeCommand` in `src/agent/agent.go` records a Step with success
true whose output is the fixed string `DRY RUN - command not executed`,
independent of the command. -/
theorem c5_dry_run_split (allowedCmds : List (List Char))
    (exec exec' exec'' : List Char → List Char × Option (List Char))
    (log : List CommandLog) (command : List Char)
    (n : Nat) (h : History) (thought : List Char)
    (hv : validateCommand command = none)
    (ht : hasCommandBeenTried log command = false)
    (hd : firstBlockedDanger allowedCmds command = none)
    (hf : fields command ≠ []) :
    executeCommand ⟨true, allowedCmds⟩ exec log command =
      ⟨dryRunOut command, none, log⟩ ∧
    executeCommand ⟨true, allowedCmds⟩ exec log command =
      executeCommand ⟨true, allowedCmds⟩ exec' log command ∧
    command <:+: dryRunOut command ∧
    agentExecuteCommand true exec'' n h thought command =
      addStep h ⟨n, thought, command, agentDryMsg, [], true⟩ := by
  have hmain : ∀ ex : List Char → List Char × Option (List Char),
      executeCommand ⟨true, allowedCmds⟩ ex log command =
        ⟨dryRunOut command, none, log⟩ := by
    intro ex
    unfold executeCommand
    rw [hv]
    simp [ht, hd, hf]
  refine ⟨hmain exec, (hmain exec).trans (hmain exec').symm, ?_, rfl⟩
  exact ⟨"[DRY RUN] Command: ".toList, [], by simp [dryRunOut]⟩

/-- Witness for the amended C5 at the concrete command `go build`. -/
theorem c5_dry_run_split_witness :
    validateCommand ("go build".toList) = none ∧
    hasCommandBeenTried [] ("go build".toList) = false ∧
    firstBlockedDanger [] ("go build".toList) = none ∧
    fields ("go build".toList) ≠ [] ∧
    (executeCommand ⟨true, []⟩ execEcho [] ("go build".toList) =
        ⟨dryRunOut ("go build".toList), none, []⟩ ∧
      executeCommand ⟨true, []⟩ execEcho [] ("go build".toList) =
        executeCommand ⟨true, []⟩ (fun c => (c, some ("x".toList))) []
          ("go build".toList) ∧
      "go build".toList <:+: dryRunOut ("go build".toList) ∧
      agentExecuteCommand true execEcho 1 (NewHistory 10) ("t".toList)
          ("go build".toList) =
        addStep (NewHistory 10)
          ⟨1, "t".toList, "go build".toList, agentDryMsg, [], true⟩) :=
  ⟨rfl, rfl, by decide, by decide,
    c5_dry_run_split [] execEcho (fun c => (c, some ("x".toList))) execEcho
      [] ("go build".toList) 1 (NewHistory 10) ("t".toList) rfl rfl
      (by decide) (by decide)⟩

/-- Every dangerous-blocklist pattern contains a character that is not white
space. -/
theorem dangerous_has_nonspace :
    ∀ d ∈ dangerousCommands, ∃ c ∈ d, isSpaceChar c = false := by
  decide

/-- If a character list contains a non-white-space character, `fieldsAux`
yields at least one field (for any pending accumulator). -/
theorem fieldsAux_ne_nil (l : List Char) :
    ∀ acc : List Char,
      (∃ c ∈ l, isSpaceChar c = false) ∨ acc ≠ [] →
      fieldsAux l acc ≠ [] := by
  induction l with
  | nil =>
    intro acc hyp
    rcases hyp with ⟨c, hc, _⟩ | hacc
    · exact absurd hc (List.not_mem_nil c)
    · simp [fieldsAux, hacc]
  | cons a t ih =>
    intro acc hyp
    by_cases hs : isSpaceChar a
    · by_cases hacc : acc = []
      · subst hacc
        rcases hyp with ⟨c, hc, hcs⟩ | hacc'
        · rcases List.mem_cons.mp hc with h | h
          · rw [h] at hcs
            rw [hcs] at hs
            exact absurd hs (by simp)
          · exact fun hcontr => (ih [] (Or.inl ⟨c, h, hcs⟩)) (by
              simpa [fieldsAux, hs] using hcontr)
        · exact absurd rfl hacc'
      · intro hcontr
        have : fieldsAux (a :: t) acc =
            acc.reverse :: fieldsAux t [] := by
          simp [fieldsAux, hs, hacc]
        rw [this] at hcontr
        exact List.cons_ne_nil _ _ hcontr
    · intro hcontr
      have : fieldsAux (a :: t) acc = fieldsAux t (a :: acc) := by
        simp [fieldsAux, hs]
      rw [this] at hcontr
      exact (ih (a :: acc) (Or.inr (List.cons_ne_nil a acc))) hcontr

/-- **C10.** Every fixed dangerous substring contains a non-white-space
character, so splitting a command that contains one of them into
whitespace-separated fields yields a non-empty list: the indexing of the
leading token in the dangerous-command loop of `executeCommand` is always in
bounds.  Conversely, the dedicated empty-command error branch
(`fields command = []`) is reachable only for commands that match no
dangerous pattern. -/
theorem c10_dangerous_fields_nonempty :
    (∀ (command d : List Char), d ∈ dangerousCommands → d <:+: command →
      fields command ≠ []) ∧
    (∀ command : List Char, fields command = [] →
      ∀ d ∈ dangerousCommands, ¬ d <:+: command) := by
  have main : ∀ (command d : List Char), d ∈ dangerousCommands →
      d <:+: command → fields command ≠ [] := by
    intro command d hd hinf
    obtain ⟨c, hc, hcs⟩ := dangerous_has_nonspace d hd
    have hcm : c ∈ command := hinf.subset hc
    exact fieldsAux_ne_nil command [] (Or.inl ⟨c, hcm, hcs⟩)
  exact ⟨main, fun command hf d hd hinf => (main command d hd hinf) hf⟩

/-- Witness for C10: the dangerous pattern `curl` occurs in `curl x`, whose
field split is non-empty. -/
theorem c10_dangerous_fields_nonempty_witness :
    "curl".toList ∈ dangerousCommands ∧
    "curl".toList <:+: "curl x".toList ∧
    fields ("curl x".toList) ≠ [] :=
  ⟨by decide, by decide,
    c10_dangerous_fields_nonempty.1 ("curl x".toList) ("curl".toList)
      (by decide) (by decide)⟩

/-- **C6, amended.** For every `Step` present in a `History`, the text
produced by `GetContext` of `src/agent/agent.go` reproduces that Step's
thought, command, output (when non-empty), error (when non-empty) and
success flag verbatim, each under its serialization label.  (The
`GetContext` of the variant in `src/unnamed/part_001` omits the output field
entirely; see the counterexample.) -/
theorem c6_render_round_trip (h : History) (s : Step) (hmem : s ∈ h.steps) :
    ("Thought: ".toList ++ s.thought ++ "\n".toList) <:+: getContext h ∧
    ("Command: ".toList ++ s.command ++ "\n".toList) <:+: getContext h ∧
    (s.output ≠ [] →
      ("Output: ".toList ++ s.output ++ "\n".toList) <:+: getContext h) ∧
    (s.error ≠ [] →
      ("Error: ".toList ++ s.error ++ "\n".toList) <:+: getContext h) ∧
    ("Success: ".toList ++ boolStr s.success ++ "\n".toList) <:+:
      getContext h := by
  have hne : h.steps ≠ [] := List.ne_nil_of_mem hmem
  have hrs : renderStep s <:+: getContext h := by
    have h1 : renderStep s ∈ h.steps.map renderStep :=
      List.mem_map_of_mem renderStep hmem
    have h2 : renderStep s <:+: (h.steps.map renderStep).flatten :=
      List.infix_of_mem_flatten h1
    have h3 : getContext h = "Previous command history:\n".toList ++
        (h.steps.map renderStep).flatten := by
      simp [getContext, hne]
    rw [h3]
    exact h2.trans ⟨"Previous command history:\n".toList, [], by simp⟩
  refine ⟨?_, ?_, ?_, ?_, ?_⟩
  · refine (List.IsInfix.trans ?_ hrs)
    refine ⟨"\nStep ".toList ++ numStr s.number ++ ":\n".toList, ?_, ?_⟩
    · exact "Command: ".toList ++ s.command ++ "\n".toList ++
        (if s.output = [] then []
          else "Output: ".toList ++ s.output ++ "\n".toList) ++
        (if s.error = [] then []
          else "Error: ".toList ++ s.error ++ "\n".toList) ++
        "Success: ".toList ++ boolStr s.success ++ "\n".toList
    · simp [renderStep]
  · refine (List.IsInfix.trans ?_ hrs)
    refine ⟨"\nStep ".toList ++ numStr s.number ++ ":\n".toList ++
      "Thought: ".toList ++ s.thought ++ "\n".toList, ?_, ?_⟩
    · exact (if s.output = [] then []
          else "Output: ".toList ++ s.output ++ "\n".toList) ++
        (if s.error = [] then []
          else "Error: ".toList ++ s.error ++ "\n".toList) ++
        "Success: ".toList ++ boolStr s.success ++ "\n".toList
    · simp [renderStep]
  · intro ho
    refine (List.IsInfix.trans ?_ hrs)
    refine ⟨"\nStep ".toList ++ numStr s.number ++ ":\n".toList ++
      "Thought: ".toList ++ s.thought ++ "\n".toList ++
      "Command: ".toList ++ s.command ++ "\n".toList, ?_, ?_⟩
    · exact (if s.error = [] then []
          else "Error: ".toList ++ s.error ++ "\n".toList) ++
        "Success: ".toList ++ boolStr s.success ++ "\n".toList
    · simp [renderStep, ho]
  · intro he
    refine (List.IsInfix.trans ?_ hrs)
    refine ⟨"\nStep ".toList ++ numStr s.number ++ ":\n".toList ++
      "Thought: ".toList ++ s.thought ++ "\n".toList ++
      "Command: ".toList ++ s.command ++ "\n".toList ++
      (if s.output = [] then []
        else "Output: ".toList ++ s.output ++ "\n".toList), ?_, ?_⟩
    · exact "Success: ".toList ++ boolStr s.success ++ "\n".toList
    · simp [renderStep, he]
  · refine (List.IsInfix.trans ?_ hrs)
    refine ⟨"\nStep ".toList ++ numStr s.number ++ ":\n".toList ++
      "Thought: ".toList ++ s.thought ++ "\n".toList ++
      "Command: ".toList ++ s.command ++ "\n".toList ++
      (if s.output = [] then []
        else "Output: ".toList ++ s.output ++ "\n".toList) ++
      (if s.error = [] then []
        else "Error: ".toList ++ s.error ++ "\n".toList), [], ?_⟩
    simp [renderStep]

/-- Witness for C6 at a concrete two-step history and a step with non-empty
output and error. -/
theorem c6_render_round_trip_witness :
    stepD ∈ hist6.steps ∧
    (("Thought: ".toList ++ stepD.thought ++ "\n".toList) <:+:
        getContext hist6 ∧
      ("Command: ".toList ++ stepD.command ++ "\n".toList) <:+:
        getContext hist6 ∧
      (stepD.output ≠ [] →
        ("Output: ".toList ++ stepD.output ++ "\n".toList) <:+:
          getContext hist6) ∧
      (stepD.error ≠ [] →
        ("Error: ".toList ++ stepD.error ++ "\n".toList) <:+:
          getContext hist6) ∧
      ("Success: ".toList ++ boolStr stepD.success ++ "\n".toList) <:+:
        getContext hist6) :=
  ⟨by decide, c6_render_round_trip hist6 stepD (by decide)⟩

/-- Dropping up to the first opening brace skips a brace-free prelude. -/
theorem dropWhile_no_open (pre rest' : List Char) (h : braceOpen ∉ pre) :
    (pre ++ braceOpen :: rest').dropWhile (fun c => c != braceOpen) =
      braceOpen :: rest' := by
  induction pre with
  | nil => simp [List.dropWhile]
  | cons a t ih =>
    have ha : a ≠ braceOpen := by
      intro hc
      exact h (by rw [hc]; exact List.mem_cons_self _ _)
    have ht : braceOpen ∉ t := fun hc => h (List.mem_cons_of_mem a hc)
    have hb : (a != braceOpen) = true := by simp [ha]
    simp only [List.cons_append, List.dropWhile, hb]
    exact ih ht

/-- Specification of the depth-counting scan: starting inside an object at
positive depth `d`, if every proper non-empty prefix of `obj` keeps the
running depth positive and `obj` brings it exactly to zero, the scan returns
the accumulated characters followed by exactly `obj`, regardless of what
follows. -/
theorem scanJSON_spec (obj : List Char) :
    ∀ (post acc : List Char) (d : Int), 1 ≤ d →
      (∀ p : List Char, p <+: obj → p ≠ [] → p ≠ obj →
        0 < d + braceDelta p) →
      d + braceDelta obj = 0 →
      scanJSON (obj ++ post) d acc = acc.reverse ++ obj := by
  induction obj with
  | nil =>
    intro post acc d hd _ hbal
    exfalso
    simp [braceDelta] at hbal
    omega
  | cons c rest ih =>
    intro post acc d hd hpre hbal
    by_cases hco : c = braceOpen
    · subst hco
      have hδ : braceDelta (braceOpen :: rest) = 1 + braceDelta rest := by
        simp [braceDelta]
      have hscan : scanJSON ((braceOpen :: rest) ++ post) d acc =
          scanJSON (rest ++ post) (d + 1) (braceOpen :: acc) := by
        simp [scanJSON]
      have hbal' : (d + 1) + braceDelta rest = 0 := by
        rw [hδ] at hbal
        omega
      have hpre' : ∀ p : List Char, p <+: rest → p ≠ [] → p ≠ rest →
          0 < (d + 1) + braceDelta p := by
        intro p hp hne hner
        have hδp : braceDelta (braceOpen :: p) = 1 + braceDelta p := by
          simp [braceDelta]
        have := hpre (braceOpen :: p)
          (List.cons_prefix_cons.mpr ⟨rfl, hp⟩) (by simp)
          (by intro hc; injection hc with _ h2; exact hner h2)
        rw [hδp] at this
        omega
      rw [hscan, ih post (braceOpen :: acc) (d + 1) (by omega) hpre' hbal',
        List.reverse_cons, List.append_assoc]
      rfl
    · by_cases hcc : c = braceClose
      · subst hcc
        have hop : braceClose ≠ braceOpen := by decide
        have hδc : braceDelta [braceClose] = -1 := by
          simp [braceDelta, hop]
        cases rest with
        | nil =>
          have hd1 : d = 1 := by
            have : d + braceDelta [braceClose] = 0 := hbal
            rw [hδc] at this
            omega
          have hscan : scanJSON (([braceClose] : List Char) ++ post) d acc =
              (braceClose :: acc).reverse := by
            simp [scanJSON, hop, hd1]
          rw [hscan, List.reverse_cons]
        | cons r rs =>
          have hδ : braceDelta (braceClose :: r :: rs) =
              -1 + braceDelta (r :: rs) := by
            simp [braceDelta, hop]
          have hpos1 : 0 < d + braceDelta [braceClose] :=
            hpre [braceClose]
              (List.cons_prefix_cons.mpr ⟨rfl, List.nil_prefix⟩)
              (by simp) (by simp)
          have hdgt : 1 ≤ d - 1 := by
            rw [hδc] at hpos1
            omega
          have hscan : scanJSON ((braceClose :: r :: rs) ++ post) d acc =
              scanJSON ((r :: rs) ++ post) (d - 1) (braceClose :: acc) := by
            have hdne : ¬ (d - 1 = 0) := by omega
            simp [scanJSON, hop, hdne]
          have hbal' : (d - 1) + braceDelta (r :: rs) = 0 := by
            rw [hδ] at hbal
            omega
          have hpre' : ∀ p : List Char, p <+: r :: rs → p ≠ [] →
              p ≠ r :: rs → 0 < (d - 1) + braceDelta p := by
            intro p hp hne hner
            have hδp : braceDelta (braceClose :: p) =
                -1 + braceDelta p := by
              simp [braceDelta, hop]
            have := hpre (braceClose :: p)
              (List.cons_prefix_cons.mpr ⟨rfl, hp⟩) (by simp)
              (by intro hc; injection hc with _ h2; exact hner h2)
            rw [hδp] at this
            omega
          rw [hscan,
            ih post (braceClose :: acc) (d - 1) hdgt hpre' hbal',
            List.reverse_cons, List.append_assoc]
          rfl
      · have hδ : braceDelta (c :: rest) = braceDelta rest := by
          simp [braceDelta, hco, hcc]
        cases rest with
        | nil =>
          exfalso
          have : d + braceDelta [c] = 0 := hbal
          have hδc : braceDelta [c] = 0 := by simp [braceDelta, hco, hcc]
          rw [hδc] at this
          omega
        | cons r rs =>
          have hscan : scanJSON ((c :: r :: rs) ++ post) d acc =
              scanJSON ((r :: rs) ++ post) d (c :: acc) := by
            simp [scanJSON, hco, hcc]
          have hbal' : d + braceDelta (r :: rs) = 0 := by
            rw [hδ] at hbal
            exact hbal
          have hpre' : ∀ p : List Char, p <+: r :: rs → p ≠ [] →
              p ≠ r :: rs → 0 < d + braceDelta p := by
            intro p hp hne hner
            have hδp : braceDelta (c :: p) = braceDelta p := by
              simp [braceDelta, hco, hcc]
            have := hpre (c :: p)
              (List.cons_prefix_cons.mpr ⟨rfl, hp⟩) (by simp)
              (by intro hc2; injection hc2 with _ h2; exact hner h2)
            rw [hδp] at this
            omega
          rw [hscan, ih post (c :: acc) d hd hpre' hbal',
            List.reverse_cons, List.append_assoc]
          rfl

/-- **C7, amended.** For every raw reply text of the form prose, then a
balanced brace-delimited object (the first opening brace of the text starts
it, its running brace depth stays positive on every proper prefix and
returns to zero exactly at its end), then arbitrary trailing prose,
`Agent.extractJSON` of `src/agent/agent.go` returns exactly that first
balanced object: it locates the first opening brace and scans forward with
depth counting until the closing brace that returns the depth to zero.
(The `parseResponse` of `src/main.go` instead slices from the first opening
brace to the last closing brace with no depth counting; see the
counterexample.) -/
theorem c7_extract_first_balanced (pre obj post : List Char)
    (hp : braceOpen ∉ pre)
    (hhead : obj.head? = some braceOpen)
    (hbal : braceDelta obj = 0)
    (hpos : ∀ i : Nat, i < obj.length → 0 < i →
      0 < braceDelta (obj.take i)) :
    extractJSON (pre ++ (obj ++ post)) = obj := by
  obtain ⟨rest, rfl⟩ : ∃ rest, obj = braceOpen :: rest := by
    cases obj with
    | nil => exact absurd hhead (by simp)
    | cons a t =>
      refine ⟨t, ?_⟩
      have : a = braceOpen := by simpa using hhead
      rw [this]
  have hstep : extractJSON (pre ++ (braceOpen :: rest ++ post)) =
      scanJSON (braceOpen :: (rest ++ post)) 0 [] := by
    unfold extractJSON
    rw [show pre ++ (braceOpen :: rest ++ post) =
      pre ++ braceOpen :: (rest ++ post) by simp]
    rw [dropWhile_no_open pre (rest ++ post) hp]
  have hone : scanJSON (braceOpen :: (rest ++ post)) 0 [] =
      scanJSON (rest ++ post) 1 [braceOpen] := by
    simp [scanJSON]
  have hδ : braceDelta (braceOpen :: rest) = 1 + braceDelta rest := by
    simp [braceDelta]
  have hbal' : (1 : Int) + braceDelta rest = 0 := by
    rw [hδ] at hbal
    omega
  have hpre' : ∀ p : List Char, p <+: rest → p ≠ [] → p ≠ rest →
      0 < (1 : Int) + braceDelta p := by
    intro p hpp hne hner
    have hlen : p.length < rest.length := by
      rcases Nat.lt_or_ge p.length rest.length with h | h
      · exact h
      · exact absurd (hpp.eq_of_length
          (Nat.le_antisymm hpp.length_le h)) hner
    have htake : (braceOpen :: rest).take (p.length + 1) =
        braceOpen :: p := by
      rw [List.take_succ_cons]
      rw [← List.prefix_iff_eq_take.mp hpp]
    have := hpos (p.length + 1) (by simpa using Nat.succ_lt_succ hlen)
      (Nat.succ_pos _)
    rw [htake] at this
    have hδp : braceDelta (braceOpen :: p) = 1 + braceDelta p := by
      simp [braceDelta]
    rw [hδp] at this
    omega
  rw [hstep, hone,
    scanJSON_spec rest post [braceOpen] 1 (by omega) hpre' hbal']
  rfl

/-- Witness for C7: prose before and after a nested two-level object, with a
stray closing brace in the trailing prose. -/
theorem c7_extract_first_balanced_witness :
    braceOpen ∉ ("Sure, here is the result: ".toList) ∧
    (("\x7b\"a\": \x7b\"b\": 1\x7d\x7d".toList).head? = some braceOpen ∧
      braceDelta ("\x7b\"a\": \x7b\"b\": 1\x7d\x7d".toList) = 0) ∧
    extractJSON ("Sure, here is the result: ".toList ++
        ("\x7b\"a\": \x7b\"b\": 1\x7d\x7d".toList ++
          " hope this helps\x7d".toList)) =
      "\x7b\"a\": \x7b\"b\": 1\x7d\x7d".toList :=
  ⟨by decide, ⟨by decide, by decide⟩,
    c7_extract_first_balanced ("Sure, here is the result: ".toList)
      ("\x7b\"a\": \x7b\"b\": 1\x7d\x7d".toList)
      (" hope this helps\x7d".toList) (by decide) (by decide) (by decide)
      (by decide)⟩

/-- **C1, counterexample.** In the `Run` loop of the variant
`src/unnamed/part_001`, a `Complete` error does not abort the run: with a
client that fails on both of two ticks, the loop consumes both iterations
(the counter reaches 2 — the second tick is a retry) and ends by exhausting
its budget, not with the fatal result carrying the error that the claim
requires. -/
theorem c1_counterexample :
    clientErr 1 = .error ("boom".toList) ∧
    clientErr 2 = .error ("boom".toList) ∧
    runLoopV1 false clientErr decodeNone execEcho 2 state0 =
      .exhausted ⟨NewHistory 10, 2⟩ ∧
    runLoopV1 false clientErr decodeNone execEcho 2 state0 ≠
      .fatal ("failed to get GPT response: ".toList ++ "boom".toList)
        state0 := by
  refine ⟨rfl, rfl, rfl, by decide⟩

/-- **C2, counterexample.** In the `Run` loop of the variant
`src/unnamed/part_000`, a parse failure aborts the run: on a reply with no
structured object the loop returns the wrapped parse error as a fatal
result instead of continuing to the next iteration. -/
theorem c2_counterexample :
    clientPlain 1 = .ok ("no structured object here".toList) ∧
    parseResponseV0 decodeT0 ("no structured object here".toList) =
      .error ("no JSON found in response: ".toList ++
        "no structured object here".toList) ∧
    runLoopV0 false clientPlain decodeT0 execEcho 1 stateV0 =
      .fatal ("failed to parse response at step ".toList ++ numStr 1 ++
        ": ".toList ++ ("no JSON found in response: ".toList ++
          "no structured object here".toList)) stateV0 ∧
    runLoopV0 false clientPlain decodeT0 execEcho 1 stateV0 ≠
      .exhausted ⟨stateV0.history, 1⟩ := by
  refine ⟨rfl, rfl, rfl, by decide⟩

/-- **C6, counterexample.** The `GetContext` of the variant
`src/unnamed/part_001` does not reproduce a stored step's non-empty output:
for a history holding a step whose output is `o1`, the rendered text
contains neither the labelled output line nor even the output text
itself. -/
theorem c6_counterexample :
    stepA.output = "o1".toList ∧
    stepA.output ≠ [] ∧
    stepA ∈ (⟨[stepA], 10⟩ : History).steps ∧
    ¬ (("Output: ".toList ++ stepA.output ++ "\n".toList) <:+:
      getContextV1 ⟨[stepA], 10⟩) ∧
    ¬ ("o1".toList <:+: getContextV1 ⟨[stepA], 10⟩) := by
  refine ⟨rfl, by decide, by decide, by decide, by decide⟩

/-- **C7, counterexample.** The extraction of `Agent.parseResponse` in
`src/main.go` slices from the first opening brace to the last closing brace:
on a reply whose trailing prose contains a closing brace it extracts a
larger substring than the first balanced object, while the depth-counting
`extractJSON` of the agent package returns exactly that object. -/
theorem c7_counterexample :
    extractJSON ("note: \x7b\"a\": 1\x7d tail\x7d".toList) =
      "\x7b\"a\": 1\x7d".toList ∧
    mainExtractJSON ("note: \x7b\"a\": 1\x7d tail\x7d".toList) =
      some ("\x7b\"a\": 1\x7d tail\x7d".toList) ∧
    mainExtractJSON ("note: \x7b\"a\": 1\x7d tail\x7d".toList) ≠
      some ("\x7b\"a\": 1\x7d".toList) := by
  refine ⟨rfl, by decide, by decide⟩

end G8t
